import Mathlib

/-!
Shallow embedding of `src/managers/AgentManager.ts` (the Agent Registry of
the porter message-passing layer).

Modelling conventions:
* JavaScript `Map` objects are modelled as association lists with unique keys;
  `Map.set` updates in place for an existing key and appends a new key, which
  matches JavaScript's insertion-order iteration semantics.
* `Runtime.Port` objects are modelled by a `Port` structure whose `pid` field
  stands for the object's reference identity (JS `Set` membership for ports is
  reference equality).
* `uuidv4()` is modelled by a fresh-id counter `nextId`; the only property the
  source relies on is freshness of generated ids.
* `Date.now()` is passed in as an explicit `now : Nat` argument.
* The external URL parser (`new URL(u).pathname`) and the manifest read
  (`browser.runtime.getManifest()`) are external collaborators; they are
  modelled by a total pathname function and an explicit `Manifest` record
  (the host supplies well-formed URLs and a fixed manifest).
* `emit` calls are recorded as a trace of `PEvent`s; the dynamics of handler
  invocation itself (`eventHandlers` / `on` / `emit`) is modelled separately
  with handlers named by `Nat` ids (a handler id models the function's
  reference identity).
* JavaScript truthiness on optional numbers (`x || d`, where both `undefined`
  and `0` are falsy) is modelled by `jsOrInt`; on optional strings (where
  `undefined` and `""` are falsy) by `strTruthy` / `matcherOf`.
-/

/-- The `PorterContext` enum of `porter.model.ts`: the kinds of connection
source.  The string values are exactly the keys of `pageMatchers` plus
`contentScript` and `unknown`; all of them are non-empty strings, which
matters for JS truthiness checks on a present context. -/
inductive PorterContext where
  | contentScript
  | sidepanel
  | options
  | popup
  | devtools
  | newtab
  | bookmarks
  | history
  | unknown
deriving DecidableEq, Repr

/-- `sender.tab` of a `Runtime.Port`: present or not, with an optional id. -/
structure Tab where
  id : Option Int
deriving DecidableEq, Repr

/-- `Runtime.MessageSender`: the fields `identifyConnectionSource` reads. -/
structure Sender where
  tab : Option Tab
  frameId : Option Int
  url : Option String
deriving DecidableEq, Repr

/-- A `Runtime.Port`.  `pid` models the object's reference identity. -/
structure Port where
  pid : Nat
  name : String
  sender : Option Sender
deriving DecidableEq, Repr

/-- The manifest fields read by `identifyConnectionSource`
(`side_panel.default_path`, `options_page`, `action.default_popup`,
`devtools_page`, `chrome_url_overrides.*`). -/
structure Manifest where
  sidePanelPath : Option String
  optionsPage : Option String
  popupPage : Option String
  devtoolsPage : Option String
  newtabOverride : Option String
  bookmarksOverride : Option String
  historyOverride : Option String
deriving DecidableEq, Repr

/-- The record returned by `identifyConnectionSource`. -/
structure ConnectionSource where
  context : PorterContext
  tabId : Option Int
  frameId : Option Int
  url : Option String
  portName : Option String
deriving DecidableEq, Repr

/-- `BrowserLocation` of `porter.model.ts`: the identity key of an agent. -/
@[ext]
structure BrowserLocation where
  context : PorterContext
  tabId : Int
  frameId : Int
deriving DecidableEq, Repr

/-- `AgentInfo` of `porter.model.ts`. -/
structure AgentInfo where
  id : Nat
  location : BrowserLocation
  createdAt : Nat
  lastActiveAt : Nat
deriving DecidableEq, Repr

/-- `Agent` of `porter.model.ts`: the ports backing a logical agent plus its
metadata record. -/
structure Agent where
  ports : List Port
  info : AgentInfo
deriving DecidableEq, Repr

/-- `Partial<BrowserLocation>`: the argument of `queryAgents`. -/
structure QueryLocation where
  context : Option PorterContext
  tabId : Option Int
  frameId : Option Int
deriving DecidableEq, Repr

/-- The three lifecycle events emitted by the manager, recorded as a trace. -/
inductive PEvent where
  | setup (info : AgentInfo) (portPid : Nat)
  | message (info : AgentInfo)
  | disconnect (info : AgentInfo)
deriving DecidableEq, Repr

/-- Is a trace entry an `agentSetup` event? -/
def PEvent.isSetup : PEvent → Bool
  | .setup _ _ => true
  | _ => false

/-- JS `x || d` on an optional number: both `undefined` and `0` are falsy. -/
def jsOrInt (x : Option Int) (d : Int) : Int :=
  match x with
  | none => d
  | some v => if v = 0 then d else v

/-- JS truthiness of an optional string: `undefined` and `""` are falsy. -/
def strTruthy (x : Option String) : Bool :=
  match x with
  | none => false
  | some s => decide ¬(s = "")

/-- JS `s.split('/').pop()`: the last `/`-separated component (split never
returns an empty array). -/
def lastSeg (s : String) : String :=
  (s.splitOn "/").getLastD s

/-- JS `s.includes(pat)`: substring containment. -/
def strIncludes (s pat : String) : Bool :=
  (List.range (s.toList.length + 1)).any (fun i => pat.toList.isPrefixOf (s.toList.drop i))

/-- Model of the external URL parser: `new URL(u).pathname`, i.e. the part of
the URL from the first `/` after `scheme://host`.  Total: the host only ever
hands the registry well-formed URLs. -/
def urlPathname (url : String) : String :=
  match url.splitOn "://" with
  | _ :: rest :: _ =>
    match rest.splitOn "/" with
    | _host :: pathParts => "/" ++ String.intercalate "/" pathParts
    | [] => "/"
  | _ => url

/-- `field ? field.split('/').pop() : dflt` applied to a manifest entry that
was itself defaulted with `|| ''`. -/
def matcherOf (field : Option String) (dflt : String) : String :=
  match field with
  | none => dflt
  | some s => if s = "" then dflt else lastSeg s

/-- The `pageMatchers` table of `identifyConnectionSource`, in declared
(object-insertion) order. -/
def pageMatchers (m : Manifest) : List (PorterContext × String) :=
  [ (.sidepanel, matcherOf m.sidePanelPath "sidepanel.html"),
    (.options, matcherOf m.optionsPage "options.html"),
    (.popup, matcherOf m.popupPage "popup.html"),
    (.devtools, matcherOf m.devtoolsPage "devtools.html"),
    (.newtab, matcherOf m.newtabOverride "newtab.html"),
    (.bookmarks, matcherOf m.bookmarksOverride "bookmarks.html"),
    (.history, matcherOf m.historyOverride "history.html") ]

/-- `AgentManager.identifyConnectionSource`.  Returns `none` exactly when the
port has no sender. -/
def identifyConnectionSource (m : Manifest) (port : Port) : Option ConnectionSource :=
  match port.sender with
  | none => none
  | some sender =>
    if sender.tab.isSome && strTruthy sender.url
        && !(strIncludes (sender.url.getD "") "extension://") then
      -- Content scripts (web pages)
      some { context := .contentScript, tabId := sender.tab.bind Tab.id,
             frameId := some (jsOrInt sender.frameId 0),
             url := sender.url, portName := some port.name }
    else if strTruthy sender.url && strIncludes (sender.url.getD "") "extension://" then
      -- Extension pages
      let urlPath := urlPathname (sender.url.getD "")
      let filename := lastSeg urlPath
      match (pageMatchers m).find? (fun pm => decide (filename = pm.2)) with
      | some pm =>
        some { context := pm.1, tabId := some (jsOrInt (sender.tab.bind Tab.id) 0),
               frameId := some (jsOrInt sender.frameId 0),
               url := sender.url, portName := some port.name }
      | none =>
        some { context := .unknown, tabId := some (jsOrInt (sender.tab.bind Tab.id) 0),
               frameId := some (jsOrInt sender.frameId 0),
               url := sender.url, portName := some port.name }
    else
      -- Fallback for unknown sources
      some { context := .unknown, tabId := some 0, frameId := none,
             url := sender.url, portName := some port.name }

/-- The identity key `addAgent` derives from a port: the classifier output
with the falsy-defaults of `addAgent` lines 67-69 applied
(`tabId || -1`, `frameId || 0`). -/
def classifyLocation (m : Manifest) (port : Port) : Option BrowserLocation :=
  (identifyConnectionSource m port).map
    (fun cs => ⟨cs.context, jsOrInt cs.tabId (-1), jsOrInt cs.frameId 0⟩)

/-- Association-list lookup, modelling `Map.get`. -/
def lookupA {κ α : Type} [DecidableEq κ] : List (κ × α) → κ → Option α
  | [], _ => none
  | e :: rest, k => if e.1 = k then some e.2 else lookupA rest k

/-- Association-list update, modelling `Map.set`: an existing key keeps its
position, a new key is appended (JS insertion-order semantics). -/
def setA {κ α : Type} [DecidableEq κ] : List (κ × α) → κ → α → List (κ × α)
  | [], k, v => [(k, v)]
  | e :: rest, k, v => if e.1 = k then (k, v) :: rest else e :: setA rest k v

/-- Association-list removal, modelling `Map.delete`. -/
def eraseA {κ α : Type} [DecidableEq κ] : List (κ × α) → κ → List (κ × α)
  | [], _ => []
  | e :: rest, k => if e.1 = k then eraseA rest k else e :: eraseA rest k

/-- JS `Set.add` on a port set: reference identity, no-op when present,
appended at the end when absent. -/
def setAddPort (ports : List Port) (p : Port) : List Port :=
  if ports.any (fun q => decide (q.pid = p.pid)) then ports else ports ++ [p]

/-- JS `Set.delete` on a port set: removes the object with this identity. -/
def erasePort (ports : List Port) (p : Port) : List Port :=
  ports.filter (fun q => decide ¬(q.pid = p.pid))

/-- The mutable state of `AgentManager`: the two maps plus the fresh-id
counter modelling `uuidv4`. -/
structure AgentManager where
  agents : List (Nat × List Port)
  agentsInfo : List (Nat × AgentInfo)
  nextId : Nat
deriving DecidableEq, Repr

/-- A freshly constructed `AgentManager`: both maps empty. -/
def AgentManager.initial : AgentManager := ⟨[], [], 0⟩

/-- The location-match predicate of `getAgentByLocation`'s `find`
(three field-wise `===` comparisons). -/
def locMatch (info : AgentInfo) (location : BrowserLocation) : Bool :=
  decide (info.location.context = location.context)
    && decide (info.location.tabId = location.tabId)
    && decide (info.location.frameId = location.frameId)

/-- `AgentManager.getAgentByLocation`. -/
def getAgentByLocation (st : AgentManager) (location : BrowserLocation) : Option Agent :=
  match st.agentsInfo.find? (fun e => locMatch e.2 location) with
  | none => none
  | some infoEntry =>
    let agentId := infoEntry.1
    match lookupA st.agents agentId, lookupA st.agentsInfo agentId with
    | some portSet, some info =>
      if portSet.length = 0 then none else some ⟨portSet, info⟩
    | some _, none => none
    | none, _ => none

/-- `AgentManager.addAgent`.  Returns the resolved agent id (or `none` for a
sender-less port), the new state, and the trace of emitted events.
The `tabAgentsInfo` filter of the source (lines 77-91) only feeds a debug
log and is omitted.  `existing || uuidv4()` is modelled by the `match`:
agent ids are uuid strings, never the falsy `""`. -/
def addAgent (m : Manifest) (st : AgentManager) (now : Nat) (port : Port) :
    Option Nat × AgentManager × List PEvent :=
  match identifyConnectionSource m port with
  | none => (none, st, [])
  | some connectionSource =>
    let determinedContext := connectionSource.context
    let tabId := jsOrInt connectionSource.tabId (-1)
    let frameId := jsOrInt connectionSource.frameId 0
    let existing := (getAgentByLocation st ⟨determinedContext, tabId, frameId⟩).map
      (fun a => a.info.id)
    let (agentId, nextId') :=
      match existing with
      | some id => (id, st.nextId)
      | none => (st.nextId, st.nextId + 1)
    let agents1 :=
      if (lookupA st.agents agentId).isSome then st.agents else setA st.agents agentId []
    let agents2 := setA agents1 agentId (setAddPort ((lookupA agents1 agentId).getD []) port)
    let (agentInfo, agentsInfo') :=
      match lookupA st.agentsInfo agentId with
      | some existingAgentInfo =>
        let ai := { existingAgentInfo with lastActiveAt := now }
        (ai, setA st.agentsInfo agentId ai)
      | none =>
        let ai : AgentInfo :=
          ⟨agentId, ⟨determinedContext, tabId, frameId⟩, now, now⟩
        (ai, setA st.agentsInfo agentId ai)
    (some agentId, ⟨agents2, agentsInfo', nextId'⟩, [PEvent.setup agentInfo port.pid])

/-- `AgentManager.getAgentsByContext`. -/
def getAgentsByContext (st : AgentManager) (context : PorterContext) : List Agent :=
  (st.agentsInfo.filter (fun e => decide (e.2.location.context = context))).map
    (fun e => ⟨(lookupA st.agents e.1).getD [], e.2⟩)

/-- `AgentManager.getAllAgents`. -/
def getAllAgents (st : AgentManager) : List Agent :=
  st.agentsInfo.map (fun e => ⟨(lookupA st.agents e.1).getD [], e.2⟩)

/-- The filter predicate of `queryAgents`: `location.f ? eq : true` per field.
A present context is always truthy (every `PorterContext` string is
non-empty); a present numeric field equal to `0` is falsy and so degrades to
the wildcard branch, exactly as in the source. -/
def queryMatch (info : AgentInfo) (location : QueryLocation) : Bool :=
  (match location.context with
   | some c => decide (info.location.context = c)
   | none => true)
  && (match location.tabId with
      | some t => if t = 0 then true else decide (info.location.tabId = t)
      | none => true)
  && (match location.frameId with
      | some f => if f = 0 then true else decide (info.location.frameId = f)
      | none => true)

/-- `AgentManager.queryAgents`. -/
def queryAgents (st : AgentManager) (location : QueryLocation) : List Agent :=
  (st.agentsInfo.filter (fun e => queryMatch e.2 location)).map
    (fun e => ⟨(lookupA st.agents e.1).getD [], e.2⟩)

/-- `AgentManager.getAgentById`. -/
def getAgentById (st : AgentManager) (id : Nat) : Option Agent :=
  match lookupA st.agents id, lookupA st.agentsInfo id with
  | some ports, some info => some ⟨ports, info⟩
  | some _, none => none
  | none, _ => none

/-- `AgentManager.getPortsByAgentId`. -/
def getPortsByAgentId (st : AgentManager) (id : Nat) : List Port :=
  (lookupA st.agents id).getD []

/-- `AgentManager.getAllAgentsInfo`. -/
def getAllAgentsInfo (st : AgentManager) : List AgentInfo :=
  st.agentsInfo.map (fun e => e.2)

/-- `AgentManager.hasPort`: name-based matching across all port sets. -/
def hasPort (st : AgentManager) (port : Port) : Bool :=
  st.agents.any (fun e => e.2.any (fun p => decide (p.name = port.name)))

/-- `AgentManager.removeAgent`: deletes the id from both maps when both hold
it, otherwise logs and does nothing.  Emits no event. -/
def removeAgent (st : AgentManager) (agentId : Nat) : AgentManager × List PEvent :=
  if (lookupA st.agents agentId).isSome && (lookupA st.agentsInfo agentId).isSome then
    ({ st with agents := eraseA st.agents agentId,
               agentsInfo := eraseA st.agentsInfo agentId }, [])
  else
    (st, [])

/-- `AgentManager.removePortFromAgent` (the port-disconnect path). -/
def removePortFromAgent (st : AgentManager) (agentId : Nat) (port : Port) :
    AgentManager × List PEvent :=
  let info? := lookupA st.agentsInfo agentId
  match lookupA st.agents agentId with
  | none => (st, [])
  | some ports =>
    let ports' := erasePort ports port
    if 0 < ports'.length then
      ({ st with agents := setA st.agents agentId ports' }, [])
    else
      let agents' := eraseA st.agents agentId
      match info? with
      | some info =>
        (⟨agents', eraseA st.agentsInfo agentId, st.nextId⟩, [PEvent.disconnect info])
      | none => ({ st with agents := agents' }, [])

/-- The mutating operations reachable from the host: a connection
(`addAgent`), a forced removal (`removeAgent`), and a port disconnect
notification (the `onDisconnect` listener calling `removePortFromAgent`). -/
inductive Op where
  | add (now : Nat) (port : Port)
  | remove (agentId : Nat)
  | portDisc (agentId : Nat) (port : Port)

/-- Apply one operation to the state (discarding outputs and events). -/
def applyOp (m : Manifest) (st : AgentManager) : Op → AgentManager
  | .add now p => (addAgent m st now p).2.1
  | .remove id => (removeAgent st id).1
  | .portDisc id p => (removePortFromAgent st id p).1

/-- Run a sequence of operations from the empty registry. -/
def runOps (m : Manifest) (ops : List Op) : AgentManager :=
  ops.foldl (applyOp m) AgentManager.initial

/-- Run a sequence of `addAgent` calls, collecting the returned ids. -/
def runAdds (m : Manifest) (st : AgentManager) :
    List (Nat × Port) → AgentManager × List (Option Nat)
  | [] => (st, [])
  | q :: rest =>
    let r := addAgent m st q.1 q.2
    let rec' := runAdds m r.2.1 rest
    (rec'.1, r.1 :: rec'.2)

/-- The standing invariant of the registry: the two maps always hold the same
ids in the same order, keys are unique and below the fresh counter, every
port set is non-empty with pairwise-distinct port identities, every stored
`AgentInfo` carries its own key as `id`, and locations are pairwise
distinct. -/
def RegistryInv (st : AgentManager) : Prop :=
  st.agents.map Prod.fst = st.agentsInfo.map Prod.fst
  ∧ (st.agentsInfo.map Prod.fst).Nodup
  ∧ (∀ k ∈ st.agentsInfo.map Prod.fst, k < st.nextId)
  ∧ (∀ e ∈ st.agents, e.2 ≠ [] ∧ (e.2.map Port.pid).Nodup)
  ∧ (∀ e ∈ st.agentsInfo, e.2.id = e.1)
  ∧ st.agentsInfo.Pairwise (fun a b => a.2.location ≠ b.2.location)

/-- The event-handler table: event name to the handlers subscribed to it, a
handler being named by its reference identity.  The constructor seeds the
three event names. -/
def initialEventHandlers : List (String × List Nat) :=
  [("agentSetup", []), ("agentMessage", []), ("agentDisconnect", [])]

/-- JS `Set.add` on a handler set. -/
def setAddNat (hs : List Nat) (h : Nat) : List Nat :=
  if hs.contains h then hs else hs ++ [h]

/-- `AgentManager.on`: adds the handler to the event's set; a no-op for an
unknown event name (the `if (handlers)` guard).  (`on` is a reserved token
in Lean, hence the name `onEvent`.) -/
def onEvent (ehs : List (String × List Nat)) (event : String) (h : Nat) :
    List (String × List Nat) :=
  match lookupA ehs event with
  | none => ehs
  | some hs => setA ehs event (setAddNat hs h)

/-- One `handlers.forEach(handler => handler(...args))` pass: handlers run in
subscription order; a throwing handler (per the `throws` oracle) terminates
the iteration and the exception escapes.  Returns the invoked handlers and
whether an exception escaped. -/
def runHandlers (throws : Nat → Bool) : List Nat → List Nat × Bool
  | [] => ([], false)
  | h :: rest =>
    if throws h then ([h], true)
    else
      let r := runHandlers throws rest
      (h :: r.1, r.2)

/-- `AgentManager.emit`: runs the handlers of the event, if any. -/
def emit (ehs : List (String × List Nat)) (event : String) (throws : Nat → Bool) :
    List Nat × Bool :=
  match lookupA ehs event with
  | none => ([], false)
  | some hs => runHandlers throws hs

instance (st : AgentManager) : Decidable (RegistryInv st) := by
  unfold RegistryInv
  exact inferInstance


theorem lookupA_eq_none_iff {κ α : Type} [DecidableEq κ] (l : List (κ × α)) (k : κ) :
    lookupA l k = none ↔ k ∉ l.map Prod.fst := by
  induction l with
  | nil => simp [lookupA]
  | cons e rest ih =>
    simp only [lookupA, List.map_cons, List.mem_cons]
    by_cases h : e.1 = k
    · subst h
      simp
    · rw [if_neg h, ih]
      constructor
      · intro hn hor
        rcases hor with h1 | h2
        · exact h h1.symm
        · exact hn h2
      · intro hn h2
        exact hn (Or.inr h2)

theorem lookupA_isSome_iff {κ α : Type} [DecidableEq κ] (l : List (κ × α)) (k : κ) :
    (lookupA l k).isSome = true ↔ k ∈ l.map Prod.fst := by
  induction l with
  | nil => simp [lookupA]
  | cons e rest ih =>
    simp only [lookupA, List.map_cons, List.mem_cons]
    by_cases h : e.1 = k
    · subst h
      simp
    · rw [if_neg h, ih]
      constructor
      · intro hm
        exact Or.inr hm
      · intro hor
        rcases hor with h1 | h2
        · exact absurd h1.symm h
        · exact h2

theorem lookupA_mem {κ α : Type} [DecidableEq κ] {l : List (κ × α)} {k : κ} {v : α}
    (h : lookupA l k = some v) : (k, v) ∈ l := by
  induction l with
  | nil => simp [lookupA] at h
  | cons e rest ih =>
    by_cases he : e.1 = k
    · simp only [lookupA, if_pos he, Option.some.injEq] at h
      subst he
      subst h
      simp
    · simp only [lookupA, if_neg he] at h
      exact List.mem_cons_of_mem _ (ih h)

theorem mem_lookupA_of_nodup {κ α : Type} [DecidableEq κ] {l : List (κ × α)} {k : κ} {v : α}
    (hnd : (l.map Prod.fst).Nodup) (h : (k, v) ∈ l) : lookupA l k = some v := by
  induction l with
  | nil => simp at h
  | cons e rest ih =>
    rw [List.map_cons, List.nodup_cons] at hnd
    rcases List.mem_cons.mp h with he | hm
    · rw [← he]
      simp [lookupA]
    · have hk : ¬(e.1 = k) := by
        intro hek
        apply hnd.1
        rw [hek]
        exact List.mem_map_of_mem Prod.fst hm
      simp only [lookupA, if_neg hk]
      exact ih hnd.2 hm

theorem lookupA_setA_self {κ α : Type} [DecidableEq κ] (l : List (κ × α)) (k : κ) (v : α) :
    lookupA (setA l k v) k = some v := by
  induction l with
  | nil => simp [setA, lookupA]
  | cons e rest ih =>
    by_cases h : e.1 = k <;> simp [setA, lookupA, h, ih]

theorem lookupA_setA_ne {κ α : Type} [DecidableEq κ] (l : List (κ × α)) (k k' : κ) (v : α)
    (h : k' ≠ k) : lookupA (setA l k v) k' = lookupA l k' := by
  have h' : ¬(k = k') := fun he => h he.symm
  induction l with
  | nil => simp [setA, lookupA, h']
  | cons e rest ih =>
    by_cases he : e.1 = k
    · simp [setA, lookupA, he, h']
    · simp [setA, lookupA, he, ih]

theorem setA_not_mem_append {κ α : Type} [DecidableEq κ] {l : List (κ × α)} {k : κ} (v : α)
    (h : k ∉ l.map Prod.fst) : setA l k v = l ++ [(k, v)] := by
  induction l with
  | nil => simp [setA]
  | cons e rest ih =>
    rw [List.map_cons, List.mem_cons] at h
    push_neg at h
    have he : ¬(e.1 = k) := fun hek => h.1 hek.symm
    simp [setA, he, ih h.2]

theorem keys_setA_mem {κ α : Type} [DecidableEq κ] {l : List (κ × α)} {k : κ} (v : α)
    (h : k ∈ l.map Prod.fst) : (setA l k v).map Prod.fst = l.map Prod.fst := by
  induction l with
  | nil => simp at h
  | cons e rest ih =>
    by_cases he : e.1 = k
    · simp [setA, he]
    · rw [List.map_cons, List.mem_cons] at h
      rcases h with h1 | h2
      · exact absurd h1.symm he
      · simp [setA, he, ih h2]

theorem lookupA_eraseA_self {κ α : Type} [DecidableEq κ] (l : List (κ × α)) (k : κ) :
    lookupA (eraseA l k) k = none := by
  induction l with
  | nil => simp [eraseA, lookupA]
  | cons e rest ih =>
    by_cases h : e.1 = k <;> simp [eraseA, lookupA, h, ih]

theorem lookupA_eraseA_ne {κ α : Type} [DecidableEq κ] (l : List (κ × α)) (k k' : κ)
    (h : k' ≠ k) : lookupA (eraseA l k) k' = lookupA l k' := by
  have h' : ¬(k = k') := fun he => h he.symm
  induction l with
  | nil => simp [eraseA, lookupA]
  | cons e rest ih =>
    by_cases he : e.1 = k
    · simp [eraseA, lookupA, he, h', ih]
    · simp [eraseA, lookupA, he, ih]

theorem mem_eraseA {κ α : Type} [DecidableEq κ] {l : List (κ × α)} {k : κ} {e : κ × α}
    (h : e ∈ eraseA l k) : e ∈ l ∧ e.1 ≠ k := by
  induction l with
  | nil => simp [eraseA] at h
  | cons e' rest ih =>
    by_cases he : e'.1 = k
    · simp only [eraseA, if_pos he] at h
      exact ⟨List.mem_cons_of_mem _ (ih h).1, (ih h).2⟩
    · simp only [eraseA, if_neg he] at h
      rcases List.mem_cons.mp h with h1 | h2
      · subst h1
        exact ⟨List.mem_cons_self _ _, he⟩
      · exact ⟨List.mem_cons_of_mem _ (ih h2).1, (ih h2).2⟩

theorem keys_eraseA {κ α : Type} [DecidableEq κ] (l : List (κ × α)) (k : κ) :
    (eraseA l k).map Prod.fst = (l.map Prod.fst).filter (fun x => decide ¬(x = k)) := by
  induction l with
  | nil => simp [eraseA]
  | cons e rest ih =>
    by_cases h : e.1 = k <;> simp [eraseA, h, ih, List.filter_cons]

theorem setA_setA {κ α : Type} [DecidableEq κ] (l : List (κ × α)) (k : κ) (v v' : α) :
    setA (setA l k v) k v' = setA l k v' := by
  induction l with
  | nil => simp [setA]
  | cons e rest ih =>
    by_cases h : e.1 = k <;> simp [setA, h, ih]

theorem locMatch_iff (i : AgentInfo) (l : BrowserLocation) :
    locMatch i l = true ↔ i.location = l := by
  simp only [locMatch, Bool.and_eq_true, decide_eq_true_eq]
  constructor
  · rintro ⟨⟨h1, h2⟩, h3⟩
    exact BrowserLocation.ext h1 h2 h3
  · rintro rfl
    exact ⟨⟨rfl, rfl⟩, rfl⟩

theorem getAgentByLocation_eq_none (st : AgentManager) (loc : BrowserLocation)
    (h : ∀ e ∈ st.agentsInfo, e.2.location ≠ loc) : getAgentByLocation st loc = none := by
  have hf : st.agentsInfo.find? (fun e => locMatch e.2 loc) = none := by
    rw [List.find?_eq_none]
    intro e he hm
    exact h e he ((locMatch_iff e.2 loc).mp hm)
  simp [getAgentByLocation, hf]

theorem getAgentByLocation_some {st : AgentManager} {loc : BrowserLocation} {a : Agent}
    (hInv : RegistryInv st) (h : getAgentByLocation st loc = some a) :
    lookupA st.agents a.info.id = some a.ports
      ∧ lookupA st.agentsInfo a.info.id = some a.info
      ∧ a.info.location = loc ∧ a.ports ≠ [] := by
  obtain ⟨hkeys, hnd, hfresh, hports, hid, hloc⟩ := hInv
  cases hf : st.agentsInfo.find? (fun e => locMatch e.2 loc) with
  | none => simp [getAgentByLocation, hf] at h
  | some infoEntry =>
    cases hpl : lookupA st.agents infoEntry.1 with
    | none => simp [getAgentByLocation, hf, hpl] at h
    | some portSet =>
      cases hil : lookupA st.agentsInfo infoEntry.1 with
      | none => simp [getAgentByLocation, hf, hpl, hil] at h
      | some info =>
        by_cases hlen : portSet.length = 0
        · simp [getAgentByLocation, hf, hpl, hil, hlen] at h
        · have ha : a = ⟨portSet, info⟩ := by
            simp [getAgentByLocation, hf, hpl, hil, hlen] at h
            exact h.symm
          have hmem : (infoEntry.1, info) ∈ st.agentsInfo := lookupA_mem hil
          have hidm : info.id = infoEntry.1 := hid _ hmem
          have hfmem : infoEntry ∈ st.agentsInfo := List.mem_of_find?_eq_some hf
          have hfeq : lookupA st.agentsInfo infoEntry.1 = some infoEntry.2 :=
            mem_lookupA_of_nodup hnd hfmem
          have hinfo2 : info = infoEntry.2 := by
            rw [hfeq] at hil
            exact (Option.some.injEq _ _).mp hil.symm
          have hlocm : infoEntry.2.location = loc :=
            (locMatch_iff infoEntry.2 loc).mp (by simpa using List.find?_some hf)
          subst ha
          refine ⟨?_, ?_, ?_, ?_⟩
          · simpa [hidm] using hpl
          · simpa [hidm] using hil
          · rw [show (Agent.mk portSet info).info = info from rfl, hinfo2]
            exact hlocm
          · intro hnil
            apply hlen
            simp only [show (Agent.mk portSet info).ports = portSet from rfl] at hnil
            simp [hnil]

theorem addAgent_new {m : Manifest} {st : AgentManager} {now : Nat} {p : Port}
    {k : BrowserLocation}
    (hInv : RegistryInv st) (hk : classifyLocation m p = some k)
    (hnotin : ∀ e ∈ st.agentsInfo, e.2.location ≠ k) :
    addAgent m st now p =
      (some st.nextId,
       ⟨st.agents ++ [(st.nextId, [p])],
        st.agentsInfo ++ [(st.nextId, ⟨st.nextId, k, now, now⟩)],
        st.nextId + 1⟩,
       [PEvent.setup ⟨st.nextId, k, now, now⟩ p.pid]) := by
  obtain ⟨hkeys, hnd, hfresh, hports, hid, hloc⟩ := hInv
  have hnmI : st.nextId ∉ st.agentsInfo.map Prod.fst :=
    fun hm => lt_irrefl _ (hfresh _ hm)
  have hnmA : st.nextId ∉ st.agents.map Prod.fst := by
    rw [hkeys]
    exact hnmI
  have hfreshA : lookupA st.agents st.nextId = none := (lookupA_eq_none_iff _ _).mpr hnmA
  have hfreshI : lookupA st.agentsInfo st.nextId = none := (lookupA_eq_none_iff _ _).mpr hnmI
  have hk' := hk
  simp only [classifyLocation, Option.map_eq_some'] at hk'
  obtain ⟨cs, hics, hcsk⟩ := hk'
  have hcsk' : (⟨cs.context, jsOrInt cs.tabId (-1), jsOrInt cs.frameId 0⟩ : BrowserLocation)
      = k := hcsk
  have hgl : getAgentByLocation st k = none := getAgentByLocation_eq_none st k hnotin
  have e1 : setA st.agents st.nextId [p] = st.agents ++ [(st.nextId, [p])] :=
    setA_not_mem_append _ hnmA
  have e2 : setA st.agentsInfo st.nextId (⟨st.nextId, k, now, now⟩ : AgentInfo)
      = st.agentsInfo ++ [(st.nextId, ⟨st.nextId, k, now, now⟩)] :=
    setA_not_mem_append _ hnmI
  simp only [addAgent, hics, hcsk', hgl, Option.map_none', hfreshA, hfreshI,
    Option.isSome_none, Bool.false_eq_true, if_false, lookupA_setA_self, setA_setA,
    Option.getD_some, setAddPort, List.any_nil, List.nil_append, e1, e2]

theorem addAgent_merge {m : Manifest} {st : AgentManager} {now : Nat} {p : Port}
    {k : BrowserLocation} {a : Agent}
    (hInv : RegistryInv st) (hk : classifyLocation m p = some k)
    (hgl : getAgentByLocation st k = some a) :
    addAgent m st now p =
      (some a.info.id,
       ⟨setA st.agents a.info.id (setAddPort a.ports p),
        setA st.agentsInfo a.info.id { a.info with lastActiveAt := now },
        st.nextId⟩,
       [PEvent.setup { a.info with lastActiveAt := now } p.pid]) := by
  obtain ⟨hpl, hil, hlocEq, hne⟩ := getAgentByLocation_some hInv hgl
  have hk' := hk
  simp only [classifyLocation, Option.map_eq_some'] at hk'
  obtain ⟨cs, hics, hcsk⟩ := hk'
  have hcsk' : (⟨cs.context, jsOrInt cs.tabId (-1), jsOrInt cs.frameId 0⟩ : BrowserLocation)
      = k := hcsk
  simp only [addAgent, hics, hcsk', hgl, Option.map_some', hpl, hil,
    Option.isSome_some, if_true, Option.getD_some]

theorem RegistryInv_addAgent_new {m : Manifest} {st : AgentManager} {now : Nat} {p : Port}
    {k : BrowserLocation}
    (hInv : RegistryInv st) (hk : classifyLocation m p = some k)
    (hnotin : ∀ e ∈ st.agentsInfo, e.2.location ≠ k) :
    RegistryInv (addAgent m st now p).2.1 := by
  rw [addAgent_new hInv hk hnotin]
  obtain ⟨hkeys, hnd, hfresh, hports, hid, hloc⟩ := hInv
  have hnmI : st.nextId ∉ st.agentsInfo.map Prod.fst :=
    fun hm => lt_irrefl _ (hfresh _ hm)
  refine ⟨?_, ?_, ?_, ?_, ?_, ?_⟩
  · simp [hkeys]
  · simp only [List.map_append, List.map_cons, List.map_nil]
    rw [List.nodup_append]
    refine ⟨hnd, List.nodup_singleton _, ?_⟩
    intro x hx hx2
    simp at hx2
    subst hx2
    exact hnmI hx
  · intro x hx
    simp only [List.map_append, List.map_cons, List.map_nil, List.mem_append,
      List.mem_singleton] at hx
    rcases hx with hx | hx
    · exact Nat.lt_succ_of_lt (hfresh x hx)
    · subst hx
      exact Nat.lt_succ_self _
  · intro e he
    rcases List.mem_append.mp he with he | he
    · exact hports e he
    · simp at he
      subst he
      simp
  · intro e he
    rcases List.mem_append.mp he with he | he
    · exact hid e he
    · simp at he
      subst he
      simp
  · rw [List.pairwise_append]
    refine ⟨hloc, List.pairwise_singleton _ _, ?_⟩
    intro a ha b hb
    simp at hb
    subst hb
    exact hnotin a ha

theorem RegistryInv_initial : RegistryInv AgentManager.initial := by
  refine ⟨rfl, ?_, ?_, ?_, ?_, ?_⟩ <;> simp [AgentManager.initial]

theorem addAgent_some_shape {m : Manifest} {st : AgentManager} {now : Nat} {p : Port}
    {cs : ConnectionSource} (hcs : identifyConnectionSource m p = some cs) :
    ∃ id st' info, addAgent m st now p = (some id, st', [PEvent.setup info p.pid]) := by
  simp only [addAgent, hcs]
  cases hex : getAgentByLocation st
      ⟨cs.context, jsOrInt cs.tabId (-1), jsOrInt cs.frameId 0⟩ with
  | none =>
    cases hinfo : lookupA st.agentsInfo st.nextId with
    | none => exact ⟨_, _, _, by simp [hex, hinfo]; exact ⟨rfl, rfl, rfl⟩⟩
    | some i => exact ⟨_, _, _, by simp [hex, hinfo]; exact ⟨rfl, rfl, rfl⟩⟩
  | some a =>
    cases hinfo : lookupA st.agentsInfo a.info.id with
    | none => exact ⟨_, _, _, by simp [hex, hinfo]; exact ⟨rfl, rfl, rfl⟩⟩
    | some i => exact ⟨_, _, _, by simp [hex, hinfo]; exact ⟨rfl, rfl, rfl⟩⟩

/-- A fixed manifest (the test suite's mocked `getManifest` returns `{}`). -/
def exManifest : Manifest := ⟨none, none, none, none, none, none, none⟩

/-- A content-script port in tab 5, frame 2. -/
def exPortA : Port := ⟨1, "porter:conn1", some ⟨some ⟨some 5⟩, some 2, some "http://example.com/"⟩⟩

/-- A second, distinct content-script port at the same location. -/
def exPortB : Port := ⟨2, "porter:conn2", some ⟨some ⟨some 5⟩, some 2, some "http://example.com/"⟩⟩

/-- The identity key both example ports classify to. -/
def exKey : BrowserLocation := ⟨.contentScript, 5, 2⟩

/-- The registry after admitting `exPortA` at time 10. -/
def exSt1 : AgentManager := ⟨[(0, [exPortA])], [(0, ⟨0, exKey, 10, 10⟩)], 1⟩

/-- The registry after additionally admitting `exPortB` at time 11. -/
def exSt2 : AgentManager := ⟨[(0, [exPortA, exPortB])], [(0, ⟨0, exKey, 10, 11⟩)], 1⟩

/-- The event trace of the first example admission. -/
def exEvs1 : List PEvent := [PEvent.setup ⟨0, exKey, 10, 10⟩ 1]

/-- The event trace of the second example admission. -/
def exEvs2 : List PEvent := [PEvent.setup ⟨0, exKey, 10, 11⟩ 2]

/-- C1: starting from the empty registry, two `addAgent` calls whose ports
classify to the identical identity key and whose ports are distinct objects
yield the same `AgentId`; after the second call that entity's port set has
exactly two members, and its `lastActiveAt` after the second call is ≥ its
`lastActiveAt` after the first call. -/
theorem addAgent_merge_spec (m : Manifest) (p1 p2 : Port) (now1 now2 : Nat)
    (k : BrowserLocation) (r1 r2 : Option Nat) (st1 st2 : AgentManager)
    (evs1 evs2 : List PEvent)
    (h1 : addAgent m AgentManager.initial now1 p1 = (r1, st1, evs1))
    (h2 : addAgent m st1 now2 p2 = (r2, st2, evs2))
    (hk1 : classifyLocation m p1 = some k) (hk2 : classifyLocation m p2 = some k)
    (hpid : p1.pid ≠ p2.pid) (hnow : now1 ≤ now2) :
    r2 = r1 ∧ ∃ id, r1 = some id
      ∧ ((lookupA st2.agents id).getD []).length = 2
      ∧ ∃ i1 i2, lookupA st1.agentsInfo id = some i1 ∧ lookupA st2.agentsInfo id = some i2
          ∧ i1.lastActiveAt ≤ i2.lastActiveAt := by
  have hnil : ∀ e ∈ AgentManager.initial.agentsInfo, e.2.location ≠ k := by
    intro e he
    simp [AgentManager.initial] at he
  have hnew := @addAgent_new m AgentManager.initial now1 p1 k
    RegistryInv_initial hk1 hnil
  have hInv1 : RegistryInv st1 := by
    have h := @RegistryInv_addAgent_new m AgentManager.initial now1 p1 k
      RegistryInv_initial hk1 hnil
    rw [h1] at h
    exact h
  rw [h1] at hnew
  obtain ⟨hr1, hst1, hev1⟩ : r1 = some 0
      ∧ st1 = ⟨[(0, [p1])], [(0, ⟨0, k, now1, now1⟩)], 1⟩
      ∧ evs1 = [PEvent.setup ⟨0, k, now1, now1⟩ p1.pid] := by
    have h := hnew
    simp only [AgentManager.initial, List.nil_append, Prod.mk.injEq] at h
    exact ⟨h.1, h.2.1, h.2.2⟩
  have hgl1 : getAgentByLocation st1 k = some ⟨[p1], ⟨0, k, now1, now1⟩⟩ := by
    rw [hst1]
    simp [getAgentByLocation, locMatch, lookupA, List.find?]
  have hmerge := @addAgent_merge m st1 now2 p2 k ⟨[p1], ⟨0, k, now1, now1⟩⟩ hInv1 hk2 hgl1
  rw [h2] at hmerge
  obtain ⟨hr2, hst2, hev2⟩ : r2 = some 0
      ∧ st2 = ⟨setA st1.agents 0 (setAddPort [p1] p2),
               setA st1.agentsInfo 0 ⟨0, k, now1, now2⟩, st1.nextId⟩
      ∧ evs2 = [PEvent.setup ⟨0, k, now1, now2⟩ p2.pid] := by
    have h := hmerge
    simp only [Prod.mk.injEq] at h
    exact ⟨h.1, h.2.1, h.2.2⟩
  have hadd : setAddPort [p1] p2 = [p1, p2] := by
    simp [setAddPort, hpid]
  refine ⟨hr2.trans hr1.symm, 0, hr1, ?_, ⟨0, k, now1, now1⟩, ⟨0, k, now1, now2⟩, ?_, ?_, hnow⟩
  · rw [hst2, hadd, hst1]
    simp [setA, lookupA]
  · rw [hst1]
    simp [lookupA]
  · rw [hst2, hst1]
    simp [setA, lookupA]

theorem addAgent_merge_spec_witness :
    some 0 = some 0 ∧ ∃ id, (some 0 : Option Nat) = some id
      ∧ ((lookupA exSt2.agents id).getD []).length = 2
      ∧ ∃ i1 i2, lookupA exSt1.agentsInfo id = some i1 ∧ lookupA exSt2.agentsInfo id = some i2
          ∧ i1.lastActiveAt ≤ i2.lastActiveAt :=
  addAgent_merge_spec exManifest exPortA exPortB 10 11 exKey (some 0) (some 0)
    exSt1 exSt2 exEvs1 exEvs2 (by decide) (by decide) (by decide) (by decide)
    (by decide) (by decide)

/-- C6: `addAgent` returns `none` exactly when the port has no sender; in
that case the state is unchanged and no event fires, and in every other case
it returns an id and fires exactly one `agentSetup` event. -/
theorem addAgent_rejection (m : Manifest) (st : AgentManager) (now : Nat) (p : Port) :
    ((addAgent m st now p).1 = none ↔ p.sender = none)
    ∧ (p.sender = none → addAgent m st now p = (none, st, []))
    ∧ ∀ s, p.sender = some s →
        (∃ id, (addAgent m st now p).1 = some id)
        ∧ (addAgent m st now p).2.2.countP (fun e => PEvent.isSetup e) = 1 := by
  cases hs : p.sender with
  | none =>
    have hics : identifyConnectionSource m p = none := by
      simp [identifyConnectionSource, hs]
    refine ⟨?_, ?_, ?_⟩
    · simp [addAgent, hics]
    · intro _
      simp [addAgent, hics]
    · intro s hs'
      exact absurd hs' (by simp)
  | some s =>
    have hics : ∃ cs, identifyConnectionSource m p = some cs := by
      simp only [identifyConnectionSource, hs]
      split
      · exact ⟨_, rfl⟩
      · split
        · split
          · exact ⟨_, rfl⟩
          · exact ⟨_, rfl⟩
        · exact ⟨_, rfl⟩
    obtain ⟨cs, hcs⟩ := hics
    obtain ⟨id, st', info, heq⟩ := @addAgent_some_shape m st now p cs hcs
    refine ⟨?_, ?_, ?_⟩
    · rw [heq]
      simp
    · intro h
      exact absurd h (by simp)
    · intro s' _
      refine ⟨⟨id, by rw [heq]⟩, ?_⟩
      rw [heq]
      simp [List.countP_cons, PEvent.isSetup]

theorem addAgent_rejection_witness :
    ((addAgent exManifest AgentManager.initial 10 exPortA).1 = none ↔ exPortA.sender = none)
    ∧ (exPortA.sender = none → addAgent exManifest AgentManager.initial 10 exPortA
        = (none, AgentManager.initial, []))
    ∧ ∀ s, exPortA.sender = some s →
        (∃ id, (addAgent exManifest AgentManager.initial 10 exPortA).1 = some id)
        ∧ (addAgent exManifest AgentManager.initial 10 exPortA).2.2.countP
            (fun e => PEvent.isSetup e) = 1 :=
  addAgent_rejection exManifest AgentManager.initial 10 exPortA

/-- C5: `removeAgent` on a known id removes the entity from both maps no
matter how many ports it still has, emits no event, and leaves every other
entity's entries in both maps untouched. -/
theorem removeAgent_force_removal (st : AgentManager) (agentId : Nat)
    (ha : (lookupA st.agents agentId).isSome = true)
    (hi : (lookupA st.agentsInfo agentId).isSome = true) :
    (removeAgent st agentId).2 = []
    ∧ lookupA (removeAgent st agentId).1.agents agentId = none
    ∧ lookupA (removeAgent st agentId).1.agentsInfo agentId = none
    ∧ ∀ id', id' ≠ agentId →
        lookupA (removeAgent st agentId).1.agents id' = lookupA st.agents id'
        ∧ lookupA (removeAgent st agentId).1.agentsInfo id' = lookupA st.agentsInfo id' := by
  simp only [removeAgent, ha, hi, Bool.and_self, if_true]
  refine ⟨by trivial, lookupA_eraseA_self _ _, lookupA_eraseA_self _ _, ?_⟩
  intro id' hne
  exact ⟨lookupA_eraseA_ne _ _ _ hne, lookupA_eraseA_ne _ _ _ hne⟩

theorem removeAgent_force_removal_witness :
    (removeAgent exSt2 0).2 = []
    ∧ lookupA (removeAgent exSt2 0).1.agents 0 = none
    ∧ lookupA (removeAgent exSt2 0).1.agentsInfo 0 = none
    ∧ ∀ id', id' ≠ 0 →
        lookupA (removeAgent exSt2 0).1.agents id' = lookupA exSt2.agents id'
        ∧ lookupA (removeAgent exSt2 0).1.agentsInfo id' = lookupA exSt2.agentsInfo id' :=
  removeAgent_force_removal exSt2 0 (by decide) (by decide)

theorem erasePort_length {ports : List Port} {q : Port}
    (hnd : (ports.map Port.pid).Nodup) (hmem : q ∈ ports) :
    (erasePort ports q).length + 1 = ports.length := by
  induction ports with
  | nil => simp at hmem
  | cons x rest ih =>
    rw [List.map_cons, List.nodup_cons] at hnd
    by_cases hx : x.pid = q.pid
    · have hrest : erasePort rest q = rest := by
        apply List.filter_eq_self.mpr
        intro y hy
        simp only [decide_eq_true_eq]
        intro hyq
        apply hnd.1
        rw [hx, ← hyq]
        exact List.mem_map_of_mem Port.pid hy
      have hstep : erasePort (x :: rest) q = erasePort rest q := by
        simp [erasePort, List.filter_cons, hx]
      rw [hstep, hrest]
      simp
    · have hqrest : q ∈ rest := by
        rcases List.mem_cons.mp hmem with h1 | h2
        · subst h1
          exact absurd rfl hx
        · exact h2
      have hih := ih hnd.2 hqrest
      have hstep : erasePort (x :: rest) q = x :: erasePort rest q := by
        simp [erasePort, List.filter_cons, hx]
      rw [hstep]
      simp only [List.length_cons]
      omega

theorem pairwise_loc_ne {l : List (Nat × AgentInfo)}
    (hp : l.Pairwise (fun a b => a.2.location ≠ b.2.location))
    {a b : Nat × AgentInfo} (ha : a ∈ l) (hb : b ∈ l) (hne : a ≠ b) :
    a.2.location ≠ b.2.location := by
  induction l with
  | nil => simp at ha
  | cons x rest ih =>
    rw [List.pairwise_cons] at hp
    rcases List.mem_cons.mp ha with ha1 | ha2 <;> rcases List.mem_cons.mp hb with hb1 | hb2
    · subst ha1
      subst hb1
      exact absurd rfl hne
    · subst ha1
      exact hp.1 b hb2
    · subst hb1
      intro hloc
      exact (hp.1 a ha2) hloc.symm
    · exact ih hp.2 ha2 hb2

/-- C3: on an entity with more than one port, the port-disconnect path
removes just that port and fires nothing; on an entity whose set holds only
the disconnecting port, it removes the entity from every read accessor and
fires exactly one `agentDisconnect` carrying the pre-removal `AgentInfo`. -/
theorem removePort_reference_counting (st : AgentManager) (agentId : Nat) (q : Port)
    (ports : List Port) (info : AgentInfo)
    (hInv : RegistryInv st)
    (hports : lookupA st.agents agentId = some ports)
    (hinfo : lookupA st.agentsInfo agentId = some info)
    (hmem : q ∈ ports) :
    (1 < ports.length →
      (removePortFromAgent st agentId q).2 = []
      ∧ lookupA (removePortFromAgent st agentId q).1.agents agentId = some (erasePort ports q)
      ∧ (erasePort ports q).length + 1 = ports.length
      ∧ lookupA (removePortFromAgent st agentId q).1.agentsInfo agentId = some info)
    ∧ (ports.length = 1 →
      (removePortFromAgent st agentId q).2 = [PEvent.disconnect info]
      ∧ getAgentById (removePortFromAgent st agentId q).1 agentId = none
      ∧ getPortsByAgentId (removePortFromAgent st agentId q).1 agentId = []
      ∧ (∀ a ∈ getAllAgents (removePortFromAgent st agentId q).1, a.info.id ≠ agentId)
      ∧ (∀ i ∈ getAllAgentsInfo (removePortFromAgent st agentId q).1, i.id ≠ agentId)
      ∧ (∀ pl, ∀ a ∈ queryAgents (removePortFromAgent st agentId q).1 pl,
          a.info.id ≠ agentId)
      ∧ (∀ c, ∀ a ∈ getAgentsByContext (removePortFromAgent st agentId q).1 c,
          a.info.id ≠ agentId)
      ∧ getAgentByLocation (removePortFromAgent st agentId q).1 info.location = none) := by
  obtain ⟨hkeys, hnd, hfresh, hportsInv, hid, hloc⟩ := hInv
  have hndpid : (ports.map Port.pid).Nodup :=
    (hportsInv _ (lookupA_mem hports)).2
  have hlen := erasePort_length hndpid hmem
  constructor
  · intro hgt1
    have hgt : 0 < (erasePort ports q).length := by omega
    simp only [removePortFromAgent, hports, if_pos hgt]
    exact ⟨by trivial, lookupA_setA_self _ _ _, hlen, hinfo⟩
  · intro h1
    have hq : ports = [q] := by
      obtain ⟨x, hx⟩ := List.length_eq_one.mp h1
      subst hx
      rw [List.mem_singleton] at hmem
      rw [hmem]
    subst hq
    have hempty : erasePort [q] q = [] := by
      simp [erasePort, List.filter_cons]
    have hngt : ¬(0 < (erasePort [q] q).length) := by
      rw [hempty]
      simp
    simp only [removePortFromAgent, hports, hinfo, if_neg hngt]
    set st' : AgentManager :=
      ⟨eraseA st.agents agentId, eraseA st.agentsInfo agentId, st.nextId⟩ with hst'
    have hmemInfo : (agentId, info) ∈ st.agentsInfo := lookupA_mem hinfo
    have hother : ∀ e ∈ st'.agentsInfo, e ∈ st.agentsInfo ∧ e.1 ≠ agentId := by
      intro e he
      exact mem_eraseA he
    have hinfoId : ∀ e ∈ st'.agentsInfo, e.2.id ≠ agentId := by
      intro e he
      obtain ⟨heOrig, hne⟩ := hother e he
      rw [hid e heOrig]
      exact hne
    refine ⟨by trivial, ?_, ?_, ?_, ?_, ?_, ?_, ?_⟩
    · simp [getAgentById, lookupA_eraseA_self]
    · simp [getPortsByAgentId, lookupA_eraseA_self]
    · intro a ha
      simp only [getAllAgents, List.mem_map] at ha
      obtain ⟨e, he, hae⟩ := ha
      rw [← hae]
      exact hinfoId e he
    · intro i hi
      simp only [getAllAgentsInfo, List.mem_map] at hi
      obtain ⟨e, he, hie⟩ := hi
      rw [← hie]
      exact hinfoId e he
    · intro pl a ha
      simp only [queryAgents, List.mem_map, List.mem_filter] at ha
      obtain ⟨e, ⟨he, _⟩, hae⟩ := ha
      rw [← hae]
      exact hinfoId e he
    · intro c a ha
      simp only [getAgentsByContext, List.mem_map, List.mem_filter] at ha
      obtain ⟨e, ⟨he, _⟩, hae⟩ := ha
      rw [← hae]
      exact hinfoId e he
    · apply getAgentByLocation_eq_none
      intro e he
      obtain ⟨heOrig, hne⟩ := hother e he
      have hneq : e ≠ (agentId, info) := by
        intro hcontra
        rw [hcontra] at hne
        exact hne rfl
      exact pairwise_loc_ne hloc heOrig hmemInfo hneq

/-- The pre-removal metadata of the single-port example entity. -/
def exInfo1 : AgentInfo := ⟨0, exKey, 10, 10⟩

theorem removePort_reference_counting_witness :
    (1 < [exPortA].length →
      (removePortFromAgent exSt1 0 exPortA).2 = []
      ∧ lookupA (removePortFromAgent exSt1 0 exPortA).1.agents 0
          = some (erasePort [exPortA] exPortA)
      ∧ (erasePort [exPortA] exPortA).length + 1 = [exPortA].length
      ∧ lookupA (removePortFromAgent exSt1 0 exPortA).1.agentsInfo 0 = some exInfo1)
    ∧ ([exPortA].length = 1 →
      (removePortFromAgent exSt1 0 exPortA).2 = [PEvent.disconnect exInfo1]
      ∧ getAgentById (removePortFromAgent exSt1 0 exPortA).1 0 = none
      ∧ getPortsByAgentId (removePortFromAgent exSt1 0 exPortA).1 0 = []
      ∧ (∀ a ∈ getAllAgents (removePortFromAgent exSt1 0 exPortA).1, a.info.id ≠ 0)
      ∧ (∀ i ∈ getAllAgentsInfo (removePortFromAgent exSt1 0 exPortA).1, i.id ≠ 0)
      ∧ (∀ pl, ∀ a ∈ queryAgents (removePortFromAgent exSt1 0 exPortA).1 pl, a.info.id ≠ 0)
      ∧ (∀ c, ∀ a ∈ getAgentsByContext (removePortFromAgent exSt1 0 exPortA).1 c,
          a.info.id ≠ 0)
      ∧ getAgentByLocation (removePortFromAgent exSt1 0 exPortA).1 exInfo1.location
          = none) :=
  removePort_reference_counting exSt1 0 exPortA [exPortA] exInfo1 (by decide) (by decide)
    (by decide) (by decide)

theorem keys_after_add {agents : List (Nat × List Port)} {info : List (Nat × AgentInfo)}
    (h : agents.map Prod.fst = info.map Prod.fst) (agentId : Nat) (v : List Port)
    (ai : AgentInfo) :
    (setA (if (lookupA agents agentId).isSome = true then agents
           else setA agents agentId []) agentId v).map Prod.fst
      = (setA info agentId ai).map Prod.fst := by
  by_cases hm : agentId ∈ agents.map Prod.fst
  · have hs : (lookupA agents agentId).isSome = true := (lookupA_isSome_iff _ _).mpr hm
    rw [if_pos hs, keys_setA_mem _ hm, keys_setA_mem _ (h ▸ hm), h]
  · have hs : ¬((lookupA agents agentId).isSome = true) := by
      rw [lookupA_isSome_iff]
      exact hm
    have hmI : agentId ∉ info.map Prod.fst := h ▸ hm
    rw [if_neg hs, setA_not_mem_append _ hm, setA_not_mem_append _ hmI]
    have hm2 : agentId ∈ (agents ++ [(agentId, [])]).map Prod.fst := by
      simp
    rw [keys_setA_mem _ hm2]
    simp [h]

theorem keys_eq_applyOp (m : Manifest) (st : AgentManager) (op : Op)
    (h : st.agents.map Prod.fst = st.agentsInfo.map Prod.fst) :
    (applyOp m st op).agents.map Prod.fst = (applyOp m st op).agentsInfo.map Prod.fst := by
  cases op with
  | add now p =>
    cases hics : identifyConnectionSource m p with
    | none => simpa [applyOp, addAgent, hics] using h
    | some cs =>
      simp only [applyOp, addAgent, hics]
      cases hex : getAgentByLocation st
          ⟨cs.context, jsOrInt cs.tabId (-1), jsOrInt cs.frameId 0⟩ with
      | none =>
        cases hli : lookupA st.agentsInfo st.nextId with
        | none =>
          simp only [hex, hli, Option.map_none']
          exact keys_after_add h st.nextId _ _
        | some i =>
          simp only [hex, hli, Option.map_none']
          exact keys_after_add h st.nextId _ _
      | some a =>
        cases hli : lookupA st.agentsInfo a.info.id with
        | none =>
          simp only [hex, hli, Option.map_some']
          exact keys_after_add h a.info.id _ _
        | some i =>
          simp only [hex, hli, Option.map_some']
          exact keys_after_add h a.info.id _ _
  | remove id =>
    simp only [applyOp, removeAgent]
    by_cases hc : ((lookupA st.agents id).isSome && (lookupA st.agentsInfo id).isSome) = true
    · rw [if_pos hc]
      rw [keys_eraseA, keys_eraseA, h]
    · rw [if_neg hc]
      exact h
  | portDisc id p =>
    simp only [applyOp, removePortFromAgent]
    cases hlp : lookupA st.agents id with
    | none => exact h
    | some ports =>
      by_cases hgt : 0 < (erasePort ports p).length
      · simp only [if_pos hgt]
        have hm : id ∈ st.agents.map Prod.fst :=
          (lookupA_isSome_iff _ _).mp (by rw [hlp]; rfl)
        rw [keys_setA_mem _ hm]
        exact h
      · cases hli : lookupA st.agentsInfo id with
        | none =>
          exfalso
          have hm : id ∈ st.agents.map Prod.fst :=
            (lookupA_isSome_iff _ _).mp (by rw [hlp]; rfl)
          rw [h] at hm
          rw [lookupA_eq_none_iff] at hli
          exact hli hm
        | some info =>
          simp only [if_neg hgt, hli]
          rw [keys_eraseA, keys_eraseA, h]

theorem keys_eq_runOps (m : Manifest) (ops : List Op) :
    (runOps m ops).agents.map Prod.fst = (runOps m ops).agentsInfo.map Prod.fst := by
  suffices h : ∀ st : AgentManager,
      st.agents.map Prod.fst = st.agentsInfo.map Prod.fst →
      (ops.foldl (applyOp m) st).agents.map Prod.fst
        = (ops.foldl (applyOp m) st).agentsInfo.map Prod.fst by
    exact h AgentManager.initial rfl
  induction ops with
  | nil =>
    intro st h
    exact h
  | cons op rest ih =>
    intro st h
    exact ih _ (keys_eq_applyOp m st op h)

/-- C4: after every sequence of `addAgent` / `removeAgent` /
`removePortFromAgent` operations from the empty registry, the `agents`
(ports) map and the `agentsInfo` map hold exactly the same set of agent
ids. -/
theorem index_consistency (m : Manifest) (ops : List Op) (id : Nat) :
    id ∈ (runOps m ops).agents.map Prod.fst
      ↔ id ∈ (runOps m ops).agentsInfo.map Prod.fst := by
  rw [keys_eq_runOps]

theorem runAdds_fresh (m : Manifest) (inputs : List (Nat × Port)) :
    ∀ st : AgentManager, RegistryInv st →
    (∀ q ∈ inputs, ∃ k, classifyLocation m q.2 = some k
        ∧ ∀ e ∈ st.agentsInfo, e.2.location ≠ k) →
    (inputs.map (fun q => classifyLocation m q.2)).Nodup →
    (runAdds m st inputs).2 = (List.range' st.nextId inputs.length).map some
    ∧ (runAdds m st inputs).1.agents.map (fun e => e.2.length)
        = st.agents.map (fun e => e.2.length) ++ List.replicate inputs.length 1
    ∧ RegistryInv (runAdds m st inputs).1 := by
  induction inputs with
  | nil =>
    intro st hInv _ _
    exact ⟨by simp [runAdds], by simp [runAdds], by simpa [runAdds] using hInv⟩
  | cons q rest ih =>
    intro st hInv hks hnd
    obtain ⟨k, hk, hnotin⟩ := hks q (List.mem_cons_self _ _)
    have hnew := @addAgent_new m st q.1 q.2 k hInv hk hnotin
    have hInvNext0 := @RegistryInv_addAgent_new m st q.1 q.2 k hInv hk hnotin
    rw [hnew] at hInvNext0
    have hInvNext : RegistryInv (⟨st.agents ++ [(st.nextId, [q.2])],
        st.agentsInfo ++ [(st.nextId, ⟨st.nextId, k, q.1, q.1⟩)],
        st.nextId + 1⟩ : AgentManager) := hInvNext0
    rw [List.map_cons, List.nodup_cons] at hnd
    have hks' : ∀ p ∈ rest, ∃ k', classifyLocation m p.2 = some k'
        ∧ ∀ e ∈ (⟨st.agents ++ [(st.nextId, [q.2])],
              st.agentsInfo ++ [(st.nextId, ⟨st.nextId, k, q.1, q.1⟩)],
              st.nextId + 1⟩ : AgentManager).agentsInfo, e.2.location ≠ k' := by
      intro p hp
      obtain ⟨k', hk', hnotin'⟩ := hks p (List.mem_cons_of_mem _ hp)
      refine ⟨k', hk', ?_⟩
      intro e he
      rcases List.mem_append.mp he with he | he
      · exact hnotin' e he
      · simp at he
        subst he
        show k ≠ k'
        intro hkk
        apply hnd.1
        rw [List.mem_map]
        exact ⟨p, hp, by rw [hk', ← hkk, hk]⟩
    obtain ⟨hids, hlens, hInvF⟩ := ih _ hInvNext hks' hnd.2
    have hrun : runAdds m st (q :: rest)
        = ((runAdds m (⟨st.agents ++ [(st.nextId, [q.2])],
              st.agentsInfo ++ [(st.nextId, ⟨st.nextId, k, q.1, q.1⟩)],
              st.nextId + 1⟩ : AgentManager) rest).1,
           some st.nextId :: (runAdds m (⟨st.agents ++ [(st.nextId, [q.2])],
              st.agentsInfo ++ [(st.nextId, ⟨st.nextId, k, q.1, q.1⟩)],
              st.nextId + 1⟩ : AgentManager) rest).2) := by
      simp only [runAdds, hnew]
    refine ⟨?_, ?_, ?_⟩
    · simp only [hrun, List.length_cons]
      rw [List.range'_succ]
      simp only [List.map_cons, List.cons.injEq]
      refine ⟨by trivial, ?_⟩
      simpa using hids
    · simp only [hrun]
      rw [show ((runAdds m (⟨st.agents ++ [(st.nextId, [q.2])],
            st.agentsInfo ++ [(st.nextId, ⟨st.nextId, k, q.1, q.1⟩)],
            st.nextId + 1⟩ : AgentManager) rest).1,
          some st.nextId :: (runAdds m (⟨st.agents ++ [(st.nextId, [q.2])],
            st.agentsInfo ++ [(st.nextId, ⟨st.nextId, k, q.1, q.1⟩)],
            st.nextId + 1⟩ : AgentManager) rest).2).1
          = (runAdds m (⟨st.agents ++ [(st.nextId, [q.2])],
            st.agentsInfo ++ [(st.nextId, ⟨st.nextId, k, q.1, q.1⟩)],
            st.nextId + 1⟩ : AgentManager) rest).1 from rfl]
      rw [hlens]
      simp [List.replicate_succ]
    · simp only [hrun]
      exact hInvF

/-- C2: a sequence of `addAgent` calls whose ports classify to
pairwise-distinct identity keys yields pairwise-distinct agent ids, every
call succeeds, and afterwards every entity's port set has exactly one
member. -/
theorem addAgent_uniqueness (m : Manifest) (inputs : List (Nat × Port))
    (hsome : ∀ q ∈ inputs, (classifyLocation m q.2).isSome = true)
    (hnd : (inputs.map (fun q => classifyLocation m q.2)).Nodup) :
    (runAdds m AgentManager.initial inputs).2.Nodup
    ∧ (∀ r ∈ (runAdds m AgentManager.initial inputs).2, r.isSome = true)
    ∧ ∀ e ∈ (runAdds m AgentManager.initial inputs).1.agents, e.2.length = 1 := by
  have hks : ∀ q ∈ inputs, ∃ k, classifyLocation m q.2 = some k
      ∧ ∀ e ∈ AgentManager.initial.agentsInfo, e.2.location ≠ k := by
    intro q hq
    obtain ⟨k, hk⟩ := Option.isSome_iff_exists.mp (hsome q hq)
    refine ⟨k, hk, ?_⟩
    intro e he
    simp [AgentManager.initial] at he
  obtain ⟨hids, hlens, _⟩ :=
    runAdds_fresh m inputs AgentManager.initial RegistryInv_initial hks hnd
  refine ⟨?_, ?_, ?_⟩
  · rw [hids]
    exact List.Nodup.map (Option.some_injective _) (List.nodup_range' _ _)
  · intro r hr
    rw [hids] at hr
    obtain ⟨x, _, hx⟩ := List.mem_map.mp hr
    rw [← hx]
    rfl
  · intro e he
    have hm : e.2.length
        ∈ (runAdds m AgentManager.initial inputs).1.agents.map (fun e => e.2.length) :=
      List.mem_map_of_mem _ he
    rw [hlens] at hm
    simp only [AgentManager.initial, List.map_nil, List.nil_append] at hm
    exact List.eq_of_mem_replicate hm

/-- A content-script port in a different tab (distinct identity key). -/
def exPortC : Port := ⟨3, "porter:conn3", some ⟨some ⟨some 6⟩, some 0, some "http://example.com/"⟩⟩

theorem addAgent_uniqueness_witness :
    (runAdds exManifest AgentManager.initial [(10, exPortA), (11, exPortC)]).2.Nodup
    ∧ (∀ r ∈ (runAdds exManifest AgentManager.initial [(10, exPortA), (11, exPortC)]).2,
        r.isSome = true)
    ∧ ∀ e ∈ (runAdds exManifest AgentManager.initial [(10, exPortA), (11, exPortC)]).1.agents,
        e.2.length = 1 :=
  addAgent_uniqueness exManifest [(10, exPortA), (11, exPortC)] (by decide) (by decide)

/-- C7 (behavior at the failing input): the registry holds exactly one agent,
at `tabId = 5`; a partial query providing `tabId = 0` nevertheless returns
that agent, because the zero value is falsy and degrades the provided filter
to a wildcard.  Under the claim ("exactly the agents whose tabId equals 0")
the result would have been empty. -/
theorem queryAgents_zero_wildcard :
    queryAgents exSt1 ⟨none, some 0, none⟩ = [⟨[exPortA], exInfo1⟩]
    ∧ exInfo1.location.tabId ≠ 0 := by decide

/-- Two handlers subscribed to `agentSetup`, handler 0 before handler 1. -/
def exHandlers : List (String × List Nat) :=
  onEvent (onEvent initialEventHandlers "agentSetup" 0) "agentSetup" 1

/-- A throw oracle under which exactly handler 0 throws. -/
def exThrows : Nat → Bool := fun n => n == 0

/-- C8 counterexample: with subscription order [0, 1] and handler 0 throwing,
`emit` invokes only handler 0 and the exception escapes the registry —
handler 1, subscribed after the thrower, is never invoked, contradicting the
claimed per-handler isolation. -/
theorem emit_no_isolation_cex :
    emit exHandlers "agentSetup" exThrows = ([0], true)
    ∧ emit exHandlers "agentSetup" exThrows ≠ ([0, 1], false) := by decide

theorem runHandlers_eq (throws : Nat → Bool) (hs : List Nat) :
    runHandlers throws hs
      = (hs.takeWhile (fun x => !throws x) ++ (hs.dropWhile (fun x => !throws x)).take 1,
         hs.any throws) := by
  induction hs with
  | nil => simp [runHandlers]
  | cons h rest ih =>
    by_cases ht : throws h = true
    · simp [runHandlers, ht]
    · simp [runHandlers, ht, ih]

/-- C8 amended: `emit` runs the handlers synchronously in subscription order
only up to and including the first handler that throws; a throwing handler
prevents all later handlers from running in that emit and the exception
propagates out of `emit` (when no handler throws, all run in order and
nothing escapes). -/
theorem emit_stops_at_throw (ehs : List (String × List Nat)) (event : String)
    (hs : List Nat) (throws : Nat → Bool)
    (h : lookupA ehs event = some hs) :
    emit ehs event throws
      = (hs.takeWhile (fun x => !throws x) ++ (hs.dropWhile (fun x => !throws x)).take 1,
         hs.any throws) := by
  simp only [emit, h]
  exact runHandlers_eq throws hs

theorem emit_stops_at_throw_witness :
    emit exHandlers "agentSetup" exThrows
      = ([0, 1].takeWhile (fun x => !exThrows x)
          ++ ([0, 1].dropWhile (fun x => !exThrows x)).take 1,
         [0, 1].any exThrows) :=
  emit_stops_at_throw exHandlers "agentSetup" [0, 1] exThrows (by decide)

/-- A port whose sender is present but carries no URL at all. -/
def exPortNoUrl : Port := ⟨7, "porter:noctx", some ⟨none, none, none⟩⟩

/-- C9 counterexample: admitting a port with a sender but no URL into the
empty registry creates an entity whose identity key is `(unknown, -1, 0)`,
not the claimed `(unknown, 0, 0)`: the classifier's fallback does return
`tabId = 0`, but `addAgent`'s falsy default `tabId || -1` turns 0 into -1. -/
theorem addAgent_fallback_cex :
    (addAgent exManifest AgentManager.initial 5 exPortNoUrl).1 = some 0
    ∧ lookupA (addAgent exManifest AgentManager.initial 5 exPortNoUrl).2.1.agentsInfo 0
        = some ⟨0, ⟨PorterContext.unknown, -1, 0⟩, 5, 5⟩
    ∧ ((-1 : Int) ≠ 0) := by decide

theorem getAgentByLocation_some_of_mem {st : AgentManager} {k : BrowserLocation}
    (hInv : RegistryInv st) (hex : ∃ e ∈ st.agentsInfo, e.2.location = k) :
    ∃ a, getAgentByLocation st k = some a := by
  obtain ⟨hkeys, hnd, hfresh, hports, hid, hloc⟩ := hInv
  have hfind : (st.agentsInfo.find? (fun e => locMatch e.2 k)).isSome = true := by
    rw [List.find?_isSome]
    obtain ⟨e, he, hek⟩ := hex
    exact ⟨e, he, (locMatch_iff e.2 k).mpr hek⟩
  obtain ⟨infoEntry, hf⟩ := Option.isSome_iff_exists.mp hfind
  have hmem : infoEntry ∈ st.agentsInfo := List.mem_of_find?_eq_some hf
  have hilook : lookupA st.agentsInfo infoEntry.1 = some infoEntry.2 :=
    mem_lookupA_of_nodup hnd hmem
  have hkeymem : infoEntry.1 ∈ st.agents.map Prod.fst := by
    rw [hkeys]
    exact List.mem_map_of_mem Prod.fst hmem
  obtain ⟨portSet, hplook⟩ :=
    Option.isSome_iff_exists.mp ((lookupA_isSome_iff _ _).mpr hkeymem)
  have hpne : ¬(portSet.length = 0) := by
    intro hz
    exact (hports _ (lookupA_mem hplook)).1 (List.length_eq_zero.mp hz)
  refine ⟨⟨portSet, infoEntry.2⟩, ?_⟩
  simp only [getAgentByLocation, hf, hplook, hilook, if_neg hpne]

/-- C9 amended: for every port whose sender is present but has no usable URL,
`addAgent` creates or extends an entity whose identity key is
`(unknown, -1, 0)`: the classifier's fallback yields context `unknown`,
`tabId = 0` and no `frameId`, after which `addAgent`'s falsy defaults map the
zero tab id to `-1` and the absent frame id to `0`. -/
theorem addAgent_fallback_key (m : Manifest) (st : AgentManager) (now : Nat) (p : Port)
    (s : Sender) (hInv : RegistryInv st) (hs : p.sender = some s)
    (hurl : strTruthy s.url = false) :
    ∃ id info, (addAgent m st now p).1 = some id
      ∧ lookupA (addAgent m st now p).2.1.agentsInfo id = some info
      ∧ info.location = ⟨PorterContext.unknown, -1, 0⟩ := by
  have hics : identifyConnectionSource m p
      = some ⟨.unknown, some 0, none, s.url, some p.name⟩ := by
    simp [identifyConnectionSource, hs, hurl]
  have hk : classifyLocation m p = some ⟨.unknown, -1, 0⟩ := by
    simp [classifyLocation, hics, jsOrInt]
  by_cases hex : ∀ e ∈ st.agentsInfo, e.2.location ≠ (⟨.unknown, -1, 0⟩ : BrowserLocation)
  · rw [addAgent_new hInv hk hex]
    refine ⟨st.nextId, ⟨st.nextId, ⟨.unknown, -1, 0⟩, now, now⟩, rfl, ?_, rfl⟩
    obtain ⟨hkeys, hnd, hfresh, _, _, _⟩ := hInv
    have hnmI : st.nextId ∉ st.agentsInfo.map Prod.fst :=
      fun hm => lt_irrefl _ (hfresh _ hm)
    have h := lookupA_setA_self st.agentsInfo st.nextId
      (⟨st.nextId, ⟨.unknown, -1, 0⟩, now, now⟩ : AgentInfo)
    rw [setA_not_mem_append _ hnmI] at h
    exact h
  · push_neg at hex
    obtain ⟨a, hgl⟩ := getAgentByLocation_some_of_mem hInv
      (by obtain ⟨e, he, hek⟩ := hex; exact ⟨e, he, hek⟩)
    obtain ⟨_, _, hlocEq, _⟩ := getAgentByLocation_some hInv hgl
    rw [addAgent_merge hInv hk hgl]
    refine ⟨a.info.id, { a.info with lastActiveAt := now }, rfl, ?_, ?_⟩
    · exact lookupA_setA_self _ _ _
    · exact hlocEq

theorem addAgent_fallback_key_witness :
    ∃ id info, (addAgent exManifest AgentManager.initial 5 exPortNoUrl).1 = some id
      ∧ lookupA (addAgent exManifest AgentManager.initial 5 exPortNoUrl).2.1.agentsInfo id
          = some info
      ∧ info.location = ⟨PorterContext.unknown, -1, 0⟩ :=
  addAgent_fallback_key exManifest AgentManager.initial 5 exPortNoUrl ⟨none, none, none⟩
    (by decide) (by decide) (by decide)

theorem runHandlers_noThrow (hs : List Nat) :
    runHandlers (fun _ => false) hs = (hs, false) := by
  induction hs with
  | nil => simp [runHandlers]
  | cons h rest ih => simp [runHandlers, ih]

/-- C10: because handlers are stored in a `Set`, subscribing the same handler
twice equals subscribing it once, and the handler is invoked exactly once per
matching emit rather than once per subscription. -/
theorem on_idempotent (ehs : List (String × List Nat)) (event : String) (hlr : Nat)
    (hs : List Nat) (hl : lookupA ehs event = some hs) (hmem : hlr ∉ hs) :
    onEvent (onEvent ehs event hlr) event hlr = onEvent ehs event hlr
    ∧ (emit (onEvent (onEvent ehs event hlr) event hlr) event
        (fun _ => false)).1.count hlr = 1 := by
  have hcont : hs.contains hlr = false := by
    simpa using hmem
  have hadd : setAddNat hs hlr = hs ++ [hlr] := by
    simp [setAddNat, hcont, hmem]
  have h1 : lookupA (onEvent ehs event hlr) event = some (setAddNat hs hlr) := by
    simp only [onEvent, hl]
    exact lookupA_setA_self _ _ _
  have hcont2 : (setAddNat hs hlr).contains hlr = true := by
    rw [hadd]
    simp
  have h3 : setAddNat (setAddNat hs hlr) hlr = setAddNat hs hlr := by
    rw [setAddNat, hcont2]
    simp
  have hidem : onEvent (onEvent ehs event hlr) event hlr = onEvent ehs event hlr := by
    set E := onEvent ehs event hlr with hE
    show onEvent E event hlr = E
    simp only [onEvent, hE, hl, lookupA_setA_self, h3]
    exact setA_setA ehs event (setAddNat hs hlr) (setAddNat hs hlr)
  refine ⟨hidem, ?_⟩
  rw [hidem]
  simp only [emit, h1, runHandlers_noThrow]
  rw [hadd]
  rw [List.count_append]
  rw [List.count_eq_zero.mpr hmem]
  simp

theorem on_idempotent_witness :
    onEvent (onEvent initialEventHandlers "agentMessage" 5) "agentMessage" 5
      = onEvent initialEventHandlers "agentMessage" 5
    ∧ (emit (onEvent (onEvent initialEventHandlers "agentMessage" 5) "agentMessage" 5)
        "agentMessage" (fun _ => false)).1.count 5 = 1 :=
  on_idempotent initialEventHandlers "agentMessage" 5 [] (by decide) (by decide)
